import Mathlib

/-!
Verification development for the pelican-sage evaluation cache.

The definitions below are a shallow embedding of the repository's code:

* `combine_results` and its loop `combineAux` embed `pelicansage/util.py`.
* The `DB` state and the operations on it (`create_src`, `create_code`,
  `create_reference`, `create_result`, `create_file`, `create_error`,
  `get_code_by_id`, `get_code_by_src_user`, `get_results`, `get_files`,
  `get_unevaluated_codeblocks`, `codeBlockResults`) embed the SQLAlchemy-backed
  `FileManager` of `pelicansage/managefiles.py`.

Modelling conventions: tables are Lean lists kept in insertion (rowid) order;
an SQL `first()` without `order_by` is the head of the filtered list; the
legacy-Query entity deduplication keeps the first occurrence of each row;
`delete()` is a list filter; the on-disk artifact directory tree that
`FileManager` keeps under `_base_path` (one directory per code-block id) is
modelled by the `dirs` field, taking the manager's `_base_path` as set.
Timestamps are integers, machine ids are integers exactly as in SQLite.
-/

namespace PelicanSage

/-- Result type tags of `ResultTypes` in managefiles.py: `Image, Stream, Error = range(3)`. -/
def ResultTypes.Image : Nat := 0

/-- Tag of stream results (`ResultTypes.Stream`). -/
def ResultTypes.Stream : Nat := 1

/-- Tag of error results (`ResultTypes.Error`). -/
def ResultTypes.Error : Nat := 2

/-- The `CellResult` named tuple of util.py: `(result_type, order, data, mimetype)`. -/
structure CellResult where
  result_type : Nat
  order : Nat
  data : String
  mimetype : String
deriving DecidableEq, Repr

/-- The `accumulated_mimetypes` tuple inside `combine_results`. -/
def accumulatedMimetypes : List String := ["text/plain", "text/html"]

/-- Suffix appended to the accumulator after a fragment when the accumulated
mimetype is `text/html` (the `accum += '<br/>'` lines of `combine_results`). -/
def htmlBr (mt : String) : String := if mt = "text/html" then "<br/>" else ""

/-- The `while indx != len(results)` loop of `combine_results` in util.py.
State: remaining input, `accum`, `accum_mimetype`, and `combined_result` so far.
Every branch of the python loop advances `indx` by one, so the loop is
structural recursion on the remaining input.  On exhaustion a non-empty
accumulator is flushed as a final Stream result. -/
def combineAux : List CellResult → String → String → List CellResult → List CellResult
  | [], accum, accum_mt, out =>
      if accum ≠ "" then out ++ [⟨ResultTypes.Stream, out.length, accum, accum_mt⟩] else out
  | cr :: rest, accum, accum_mt, out =>
      if cr.mimetype = accum_mt then
        combineAux rest (accum ++ cr.data ++ htmlBr accum_mt) accum_mt out
      else
        let out1 := if accum ≠ "" then out ++ [⟨ResultTypes.Stream, out.length, accum, accum_mt⟩] else out
        if cr.mimetype ∈ accumulatedMimetypes then
          combineAux rest (cr.data ++ htmlBr cr.mimetype) cr.mimetype out1
        else
          combineAux rest "" accum_mt (out1 ++ [⟨cr.result_type, out1.length, cr.data, cr.mimetype⟩])

/-- The `combine_results` function of util.py: merges adjacent fragments of the
same accumulated mimetype (`text/plain`, `text/html`) and renumbers the merged
list consecutively from 0. -/
def combine_results (results : List CellResult) : List CellResult :=
  match results with
  | [] => []
  | r :: _ =>
      combineAux results "" (if r.mimetype ∈ accumulatedMimetypes then r.mimetype else "") []

/-- Row of the `DataSrc` table. -/
structure DataSrc where
  id : Int
  src : String
  filetype : String
deriving DecidableEq, Repr

/-- Row of the `CodeBlock` table. -/
structure CodeBlock where
  id : Int
  user_id : Option String
  src_id : Int
  order : Int
  content : String
  last_evaluated : Option Int
  language : String
  platform : String
deriving DecidableEq, Repr

/-- Row of the `StreamResult` table. -/
structure StreamResult where
  id : Int
  result : String
  code_id : Int
  order : Int
  mimetype : String
deriving DecidableEq, Repr

/-- Row of the `FileResult` table. -/
structure FileResult where
  id : Int
  file_name : String
  order : Int
  code_id : Int
  mimetype : String
deriving DecidableEq, Repr

/-- Row of the `ErrorResult` table. -/
structure ErrorResult where
  id : Int
  order : Int
  ename : String
  evalue : String
  traceback : String
  code_id : Int
deriving DecidableEq, Repr

/-- Row of the `SrcReference` table (composite primary key `(src_id1, src_id2)`). -/
structure SrcReference where
  src_id1 : Int
  src_id2 : Int
deriving DecidableEq, Repr

/-- State of one `FileManager`: the five tables plus the reference table, the
on-disk artifact directories (one per code-block id, under `_base_path`), and
the autoincrement counters of each table. -/
structure DB where
  srcs : List DataSrc
  blocks : List CodeBlock
  streams : List StreamResult
  files : List FileResult
  errors : List ErrorResult
  refs : List SrcReference
  dirs : List Int
  nextSrcId : Int
  nextBlockId : Int
  nextStreamId : Int
  nextFileId : Int
  nextErrorId : Int
deriving DecidableEq, Repr

/-- Fresh state of a just-constructed `FileManager` (empty tables, SQLite
autoincrement counters starting at 1). -/
def emptyDB : DB :=
  { srcs := [], blocks := [], streams := [], files := [], errors := [], refs := []
    dirs := [], nextSrcId := 1, nextBlockId := 1, nextStreamId := 1, nextFileId := 1
    nextErrorId := 1 }

/-- Extension of a path as computed by `os.path.splitext(src)[1][1:]` in
`create_src`: the part of the basename after its last dot, where leading dots
of the basename never start an extension. -/
def extOf (s : String) : String :=
  let base := (s.data.reverse.takeWhile (· ≠ '/')).reverse
  let lead := (base.takeWhile (· = '.')).length
  if (base.drop lead).contains '.' then
    String.mk ((base.reverse.takeWhile (· ≠ '.')).reverse)
  else ""

/-- The `FileManager.create_src` operation: get-or-create a `DataSrc` by name,
deriving `filetype` from the name's extension. -/
def create_src (db : DB) (src : String) : DB × DataSrc :=
  match db.srcs.find? (fun s => s.src == src) with
  | some s => (db, s)
  | none =>
      let s : DataSrc := { id := db.nextSrcId, src := src, filetype := extOf src }
      ({ db with srcs := db.srcs ++ [s], nextSrcId := db.nextSrcId + 1 }, s)

/-- The user-id resolution step at the top of `FileManager.create_code`: when a
`user_id` is supplied and the first `CodeBlock` joined to a `DataSrc` named
`src` holding that `user_id` sits at a different `order`, that block's
`user_id` is cleared ("last tag remaining wins"). -/
def resolveUser (db : DB) (src : String) (order : Int) (user_id : Option String) : DB :=
  match user_id with
  | none => db
  | some uid =>
      match db.blocks.find? (fun b =>
          db.srcs.any (fun s => s.id == b.src_id && s.src == src) && b.user_id == some uid) with
      | none => db
      | some b0 =>
          if b0.order == order then db
          else { db with blocks := db.blocks.map (fun b =>
                   if b.id == b0.id then { b with user_id := none } else b) }

/-- The `FileManager.create_code` operation (the spec's `upsert_code`).
After user-id resolution and source get-or-create: a missing `(src, order)`
block is created; an existing one with unchanged content is returned as-is;
an existing one with changed content triggers invalidation — the results and
artifact directories of every block of the source are deleted, every block of
the source with a strictly higher order is deleted, and the block itself gets
the new content, the call's `user_id`, and a cleared `last_evaluated`. -/
def create_code (db : DB) (code : String) (src : String) (order : Int)
    (user_id : Option String) (language : String) (platform : String) :
    DB × CodeBlock :=
  let db1 := resolveUser db src order user_id
  let sr := create_src db1 src
  let db2 := sr.1
  let src_obj := sr.2
  match db2.blocks.find? (fun b => b.src_id == src_obj.id && b.order == order) with
  | none =>
      let blk : CodeBlock :=
        { id := db2.nextBlockId, user_id := user_id, src_id := src_obj.id, order := order
          content := code, last_evaluated := none, language := language, platform := platform }
      ({ db2 with blocks := db2.blocks ++ [blk], nextBlockId := db2.nextBlockId + 1 }, blk)
  | some fetch =>
      if fetch.content == code then (db2, fetch)
      else
        let idsInSrc := (db2.blocks.filter (fun b => b.src_id == fetch.src_id)).map (·.id)
        let db3 : DB :=
          { db2 with
            dirs := db2.dirs.filter (fun d => !(idsInSrc.contains d))
            streams := db2.streams.filter (fun r => !(idsInSrc.contains r.code_id))
            errors := db2.errors.filter (fun r => !(idsInSrc.contains r.code_id))
            files := db2.files.filter (fun r => !(idsInSrc.contains r.code_id)) }
        let db4 : DB :=
          { db3 with blocks := db3.blocks.filter (fun b =>
              !(b.src_id == src_obj.id && b.order > fetch.order)) }
        let db5 : DB :=
          { db4 with blocks := db4.blocks.map (fun b =>
              if b.id == fetch.id then
                { b with content := code, user_id := user_id, last_evaluated := none }
              else b) }
        (db5, { fetch with content := code, user_id := user_id, last_evaluated := none })

/-- The `FileManager.create_reference` operation: get-or-create both sources,
then get-or-create the `(src1, src2)` reference row. -/
def create_reference (db : DB) (src1 src2 : String) : DB × SrcReference :=
  let r1 := create_src db src1
  let r2 := create_src r1.1 src2
  let db2 := r2.1
  match db2.refs.find? (fun r => r.src_id1 == r1.2.id && r.src_id2 == r2.2.id) with
  | some r => (db2, r)
  | none =>
      let r : SrcReference := { src_id1 := r1.2.id, src_id2 := r2.2.id }
      ({ db2 with refs := db2.refs ++ [r] }, r)

/-- The `FileManager.create_result` operation: append one `StreamResult` row. -/
def create_result (db : DB) (code_id : Int) (result_text : String) (order : Int)
    (mimetype : String) : DB × StreamResult :=
  let r : StreamResult :=
    { id := db.nextStreamId, result := result_text, code_id := code_id, order := order
      mimetype := mimetype }
  ({ db with streams := db.streams ++ [r], nextStreamId := db.nextStreamId + 1 }, r)

/-- The `FileManager.create_file` operation (its database effect is shared with
`save_file`): ensure the block's artifact directory exists and append one
`FileResult` row. -/
def create_file (db : DB) (code_id : Int) (file_name : String) (order : Int)
    (mimetype : String) : DB × FileResult :=
  let dirs1 := if db.dirs.contains code_id then db.dirs else db.dirs ++ [code_id]
  let r : FileResult :=
    { id := db.nextFileId, file_name := file_name, order := order, code_id := code_id
      mimetype := mimetype }
  ({ db with dirs := dirs1, files := db.files ++ [r], nextFileId := db.nextFileId + 1 }, r)

/-- The `FileManager.create_error` operation: append one `ErrorResult` row. -/
def create_error (db : DB) (code_id : Int) (ename evalue traceback : String)
    (order : Int) : DB × ErrorResult :=
  let r : ErrorResult :=
    { id := db.nextErrorId, order := order, ename := ename, evalue := evalue
      traceback := traceback, code_id := code_id }
  ({ db with errors := db.errors ++ [r], nextErrorId := db.nextErrorId + 1 }, r)

/-- The `FileManager.timestamp_code` operation on an existing block id: set its
`last_evaluated` timestamp. -/
def timestamp_code (db : DB) (code_id : Int) (timestamp : Int) : DB :=
  { db with blocks := db.blocks.map (fun b =>
      if b.id == code_id then { b with last_evaluated := some timestamp } else b) }

/-- The `FileManager.get_code` lookup by primary key (the
`filter_by(id=code_id).first()` branch). -/
def get_code_by_id (db : DB) (code_id : Int) : Option CodeBlock :=
  db.blocks.find? (fun b => b.id == code_id)

/-- The `FileManager.get_code` lookup by `(src, user_id)`: note the code calls
`create_src` first, so a missing source row is created as a side effect. -/
def get_code_by_src_user (db : DB) (src : String) (user_id : String) :
    DB × Option CodeBlock :=
  let sr := create_src db src
  (sr.1, sr.1.blocks.find? (fun b => b.user_id == some user_id && b.src_id == sr.2.id))

/-- The `FileManager.get_results` operation: the block's `stream_results`
relationship rows in insertion order, `[]` for an unknown id. -/
def get_results (db : DB) (code_id : Int) : List StreamResult :=
  match db.blocks.find? (fun b => b.id == code_id) with
  | none => []
  | some b => db.streams.filter (fun r => r.code_id == b.id)

/-- The `FileManager.get_files` operation: the block's `file_results`
relationship rows in insertion order, `[]` for an unknown id. -/
def get_files (db : DB) (code_id : Int) : List FileResult :=
  match db.blocks.find? (fun b => b.id == code_id) with
  | none => []
  | some b => db.files.filter (fun r => r.code_id == b.id)

/-- One element of the heterogeneous list built by the `CodeBlock.results`
property (`stream_results + file_results + error_results`). -/
inductive BlockResult where
  | stream : StreamResult → BlockResult
  | file : FileResult → BlockResult
  | error : ErrorResult → BlockResult
deriving DecidableEq, Repr

/-- The `order` key used by the `CodeBlock.results` property's sort. -/
def BlockResult.order : BlockResult → Int
  | .stream r => r.order
  | .file r => r.order
  | .error r => r.order

/-- The `CodeBlock.results` property: the block's stream, file and error result
rows sorted (stably, as python's `sorted`) ascending by their `order` field. -/
def codeBlockResults (db : DB) (b : CodeBlock) : List BlockResult :=
  ((db.streams.filter (fun r => r.code_id == b.id)).map BlockResult.stream
    ++ (db.files.filter (fun r => r.code_id == b.id)).map BlockResult.file
    ++ (db.errors.filter (fun r => r.code_id == b.id)).map BlockResult.error).mergeSort
    (fun x y => decide (x.order ≤ y.order))

/-- The `FileManager.get_unevaluated_codeblocks` operation: sources (legacy
Query deduplication keeps each once, in row order) having some block with null
`last_evaluated` and non-`ipynb` platform, themselves of non-`ipynb` filetype;
returns their full block lists and the concatenation of their outgoing
reference rows. -/
def get_unevaluated_codeblocks (db : DB) : List (List CodeBlock) × List SrcReference :=
  let qsrcs := db.srcs.filter (fun s =>
    s.filetype != "ipynb" &&
      db.blocks.any (fun b =>
        b.src_id == s.id && b.last_evaluated == none && b.platform != "ipynb"))
  (qsrcs.map (fun s => db.blocks.filter (fun b => b.src_id == s.id)),
   (qsrcs.map (fun s => db.refs.filter (fun r => r.src_id1 == s.id))).flatten)

end PelicanSage

namespace PelicanSage

/-! Helper lemmas about the store operations. -/

/-- The `create_src` operation only touches the `srcs` table and its counter. -/
theorem create_src_blocks (db : DB) (src : String) :
    (create_src db src).1.blocks = db.blocks := by
  unfold create_src
  cases db.srcs.find? (fun s => s.src == src) <;> rfl

/-- End state of the C5 scenario: two `create_code` calls claiming user id "x"
at orders 5 and 9 of the same source. -/
def c5db : DB :=
  (create_code (create_code emptyDB "c1" "a.rst" 5 (some "x") "sage" "sage").1
    "c2" "a.rst" 9 (some "x") "sage" "sage").1

/-- C5: creating a block with user_id "x" at order 5 in a Source and then a
second block with user_id "x" at order 9 in the same Source leaves the order-5
block's user_id null and the order-9 block holding "x" (last writer wins), and
no further block of the source holds "x". -/
theorem c5_user_id_last_writer_wins :
    ((c5db.blocks.find? (fun b => b.order == 5)).map (·.user_id) = some none) ∧
    ((c5db.blocks.find? (fun b => b.order == 9)).map (·.user_id) = some (some "x")) ∧
    (c5db.blocks.filter (fun b => b.user_id == some "x")).map (·.order) = [9] := by
  decide

/-- C6: `combine_results` on Stream "a", Stream "b", an Image, Stream "c" (all
streams text/plain) concatenates the adjacent streams and renumbers the merged
list consecutively from 0. -/
theorem c6_combine_results_merge_concrete :
    combine_results
        [⟨ResultTypes.Stream, 0, "a", "text/plain"⟩,
         ⟨ResultTypes.Stream, 1, "b", "text/plain"⟩,
         ⟨ResultTypes.Image, 2, "img", "image/png"⟩,
         ⟨ResultTypes.Stream, 3, "c", "text/plain"⟩] =
      [⟨ResultTypes.Stream, 0, "ab", "text/plain"⟩,
       ⟨ResultTypes.Image, 1, "img", "image/png"⟩,
       ⟨ResultTypes.Stream, 2, "c", "text/plain"⟩] := by
  decide

/-- State of the C7 scenario after registering the reference (A,B) twice. -/
def c7dbRefs : DB := (create_reference (create_reference emptyDB "a.rst" "b.rst").1 "a.rst" "b.rst").1

/-- State of the C7 scenario after additionally creating an unevaluated block in A. -/
def c7db : DB := (create_code c7dbRefs "code" "a.rst" 1 none "sage" "sage").1

/-- C7: registering the reference (A,B) twice leaves exactly one Reference row
for that pair (both sources auto-created), and once A holds an unevaluated
block, `get_unevaluated_codeblocks` returns that Reference exactly once. -/
theorem c7_reference_roundtrip :
    ((c7dbRefs.srcs.map (·.src) = ["a.rst", "b.rst"]) ∧
      c7dbRefs.refs = [⟨1, 2⟩]) ∧
    ((c7db.refs.filter (fun r => r.src_id1 == 1 && r.src_id2 == 2)).length = 1 ∧
      (get_unevaluated_codeblocks c7db).2 = [⟨1, 2⟩]) := by
  decide

/-- End state of the C2 counterexample scenario: one block, then two stream
results appended with orders 2 and 1 (in that insertion order). -/
def c2db : DB :=
  (create_result
    (create_result (create_code emptyDB "x" "a.rst" 1 none "sage" "sage").1 1 "A" 2 "text/plain").1
    1 "B" 1 "text/plain").1

/-- C2 counterexample: after appending stream results with orders 2 then 1 to
block 1, `get_results` returns them in insertion order [2, 1], which is not
sorted ascending by the `order` field — the claim as stated is false. -/
theorem c2_counterexample :
    (get_results c2db 1).map (·.order) = [2, 1] ∧
      ¬ List.Sorted (· ≤ ·) ((get_results c2db 1).map (·.order)) := by
  decide

/-- C2 (amended): the sorted exposure of a block's results is the
`CodeBlock.results` property, not `get_results`: for every store state and
block, `codeBlockResults` is sorted ascending by the `order` field and is a
permutation of all of the block's stream, file and error result rows. -/
theorem c2_results_property_sorted (db : DB) (b : CodeBlock) :
    List.Sorted (fun x y : BlockResult => x.order ≤ y.order) (codeBlockResults db b) ∧
      (codeBlockResults db b).Perm
        ((db.streams.filter (fun r => r.code_id == b.id)).map BlockResult.stream
          ++ (db.files.filter (fun r => r.code_id == b.id)).map BlockResult.file
          ++ (db.errors.filter (fun r => r.code_id == b.id)).map BlockResult.error) := by
  constructor
  · have h := @List.sorted_mergeSort BlockResult
      (fun x y => decide (x.order ≤ y.order))
      (fun a b c hab hbc => by
        simp only [decide_eq_true_eq] at hab hbc ⊢
        omega)
      (fun a b => by
        simp only [Bool.or_eq_true, decide_eq_true_eq]
        omega)
      ((db.streams.filter (fun r => r.code_id == b.id)).map BlockResult.stream
        ++ (db.files.filter (fun r => r.code_id == b.id)).map BlockResult.file
        ++ (db.errors.filter (fun r => r.code_id == b.id)).map BlockResult.error)
    exact h.imp (fun hxy => by simpa using hxy)
  · exact List.mergeSort_perm _ _

/-- C9: for a `code_id` matching no block, both `get_results` and `get_files`
return the empty list (not an exception, not a "not found" marker). -/
theorem c9_unknown_id_empty_lists (db : DB) (cid : Int)
    (h : ∀ b ∈ db.blocks, b.id ≠ cid) :
    get_results db cid = [] ∧ get_files db cid = [] := by
  have hfind : db.blocks.find? (fun b => b.id == cid) = none := by
    rw [List.find?_eq_none]
    intro b hb
    simpa using h b hb
  constructor
  · unfold get_results
    rw [hfind]
  · unfold get_files
    rw [hfind]

/-- State with one block (id 1) and one of its results, used to witness the
unknown-id lookups. -/
def c9db : DB :=
  (create_result (create_code emptyDB "x" "a.rst" 1 none "sage" "sage").1 1 "A" 0 "text/plain").1

/-- Witness for C9 at the concrete state `c9db` and the unknown id 99. -/
theorem c9_witness :
    (∀ b ∈ c9db.blocks, b.id ≠ 99) ∧
      (get_results c9db 99 = [] ∧ get_files c9db 99 = []) :=
  ⟨by decide, c9_unknown_id_empty_lists c9db 99 (by decide)⟩

/-- C8: `get_code` lookups that match nothing return `none` (never an
exception): a `code_id` matching no block yields `none`, and a `(src, user_id)`
pair matching no block yields `none` as well. -/
theorem c8_get_code_not_found (db : DB) (cid : Int) (src uid : String)
    (h1 : ∀ b ∈ db.blocks, b.id ≠ cid)
    (h2 : ∀ b ∈ db.blocks, ¬ (b.user_id = some uid ∧ b.src_id = (create_src db src).2.id)) :
    get_code_by_id db cid = none ∧ (get_code_by_src_user db src uid).2 = none := by
  constructor
  · unfold get_code_by_id
    rw [List.find?_eq_none]
    intro b hb
    simpa using h1 b hb
  · unfold get_code_by_src_user
    simp only
    rw [create_src_blocks, List.find?_eq_none]
    intro b hb
    have h := h2 b hb
    simpa using h

/-- State with one block (id 1, user id "stuff" in "A.rst"), used to witness
the not-found lookups of `get_code`. -/
def c8db : DB := (create_code emptyDB "xx" "A.rst" 1 (some "stuff") "sage" "sage").1

/-- Witness for C8 at the concrete state `c8db`, the unknown id 444 and the
unknown user id "DNE". -/
theorem c8_witness :
    (∀ b ∈ c8db.blocks, b.id ≠ 444) ∧
      (∀ b ∈ c8db.blocks, ¬ (b.user_id = some "DNE" ∧ b.src_id = (create_src c8db "A.rst").2.id)) ∧
      (get_code_by_id c8db 444 = none ∧ (get_code_by_src_user c8db "A.rst" "DNE").2 = none) :=
  ⟨by decide, by decide, c8_get_code_not_found c8db 444 "A.rst" "DNE" (by decide) (by decide)⟩

end PelicanSage

namespace PelicanSage


/-- A boolean `contains` returning `false` means non-membership (integer lists). -/
theorem int_contains_false {l : List Int} {a : Int} (h : l.contains a = false) : a ∉ l := by
  simpa using h

/-- C1: calling `create_code` at an existing `(Source, order)` with changed
content invalidates the source: every block of the source loses its cached
results (stream, file, error) and its on-disk artifact directory; every block
of the source at a strictly higher order loses its row; blocks at lower orders
keep their rows; and the block itself keeps its id with the new content and a
cleared `last_evaluated`. -/
theorem c1_invalidation (db db2 : DB) (code src : String) (order : Int)
    (lang plat : String) (s : DataSrc) (f : CodeBlock)
    (hids : (db.blocks.map (·.id)).Nodup)
    (hs : db.srcs.find? (fun t => t.src == src) = some s)
    (hf : db.blocks.find? (fun b => b.src_id == s.id && b.order == order) = some f)
    (hc : f.content ≠ code)
    (hdb2 : db2 = (create_code db code src order none lang plat).1) :
    (∀ b ∈ db.blocks, b.src_id = s.id →
        (∀ r ∈ db2.streams, r.code_id ≠ b.id) ∧
        (∀ r ∈ db2.files, r.code_id ≠ b.id) ∧
        (∀ r ∈ db2.errors, r.code_id ≠ b.id) ∧
        b.id ∉ db2.dirs) ∧
    (∀ b ∈ db.blocks, b.src_id = s.id → order < b.order → b.id ∉ db2.blocks.map (·.id)) ∧
    (∀ b ∈ db.blocks, b.src_id = s.id → b.order < order → b.id ∈ db2.blocks.map (·.id)) ∧
    f.id ∈ db2.blocks.map (·.id) ∧
    (∀ b ∈ db2.blocks, b.id = f.id → b.content = code ∧ b.last_evaluated = none) := by
  have hpf := List.find?_some hf
  have hmf := List.mem_of_find?_eq_some hf
  simp only [Bool.and_eq_true, beq_iff_eq] at hpf
  obtain ⟨hfs, hfo⟩ := hpf
  have hceq : (f.content == code) = false := by
    simp [hc]
  rw [create_code] at hdb2
  simp only [resolveUser] at hdb2
  rw [create_src] at hdb2
  rw [hs] at hdb2
  simp only at hdb2
  rw [hf] at hdb2
  simp only [hceq, Bool.false_eq_true, if_false] at hdb2
  have hmemids : ∀ b ∈ db.blocks, b.src_id = s.id →
      b.id ∈ (db.blocks.filter (fun b => b.src_id == f.src_id)).map (fun b => b.id) := by
    intro b hb hbs
    exact List.mem_map.mpr ⟨b, List.mem_filter.mpr ⟨hb, by simp [hbs, hfs]⟩, rfl⟩
  have upd_id : ∀ b' : CodeBlock,
      (if b'.id == f.id then
        { b' with content := code, user_id := none, last_evaluated := none } else b').id = b'.id := by
    intro b'
    split <;> rfl
  subst hdb2
  refine ⟨?_, ?_, ?_, ?_, ?_⟩
  · intro b hb hbs
    have hid := hmemids b hb hbs
    refine ⟨?_, ?_, ?_, ?_⟩
    · intro r hr
      have h2 := (List.mem_filter.mp hr).2
      rw [Bool.not_eq_true'] at h2
      exact fun he => int_contains_false h2 (he ▸ hid)
    · intro r hr
      have h2 := (List.mem_filter.mp hr).2
      rw [Bool.not_eq_true'] at h2
      exact fun he => int_contains_false h2 (he ▸ hid)
    · intro r hr
      have h2 := (List.mem_filter.mp hr).2
      rw [Bool.not_eq_true'] at h2
      exact fun he => int_contains_false h2 (he ▸ hid)
    · intro hmem
      have h2 := (List.mem_filter.mp hmem).2
      rw [Bool.not_eq_true'] at h2
      exact int_contains_false h2 hid
  · intro b hb hbs hord hmem
    obtain ⟨bb, hbbmem, hbbid⟩ := List.mem_map.mp hmem
    obtain ⟨b', hb'mem', hb'upd⟩ := List.mem_map.mp hbbmem
    obtain ⟨hb'mem, hb'keep⟩ := List.mem_filter.mp hb'mem'
    have hb'id : b'.id = b.id := by
      rw [← hbbid, ← hb'upd, upd_id]
    have hbb' : b' = b := List.inj_on_of_nodup_map hids hb'mem hb hb'id
    subst hbb'
    simp only [Bool.not_eq_eq_eq_not, Bool.not_true, Bool.and_eq_false_iff] at hb'keep
    rcases hb'keep with h | h
    · simp [hbs] at h
    · simp only [decide_eq_false_iff_not, not_lt] at h
      omega
  · intro b hb hbs hord
    refine List.mem_map.mpr ⟨if b.id == f.id then
        { b with content := code, user_id := none, last_evaluated := none } else b, ?_, upd_id b⟩
    refine List.mem_map.mpr ⟨b, List.mem_filter.mpr ⟨hb, ?_⟩, rfl⟩
    simp only [Bool.not_eq_eq_eq_not, Bool.not_true, Bool.and_eq_false_iff]
    right
    simp only [decide_eq_false_iff_not, not_lt]
    omega
  · refine List.mem_map.mpr ⟨if f.id == f.id then
        { f with content := code, user_id := none, last_evaluated := none } else f, ?_, ?_⟩
    · refine List.mem_map.mpr ⟨f, List.mem_filter.mpr ⟨hmf, ?_⟩, rfl⟩
      simp only [Bool.not_eq_eq_eq_not, Bool.not_true, Bool.and_eq_false_iff]
      right
      simp
    · rw [upd_id]
  · intro b hmem hid
    obtain ⟨b', hb'mem', hb'upd⟩ := List.mem_map.mp hmem
    by_cases hcase : (b'.id == f.id) = true
    · rw [if_pos hcase] at hb'upd
      rw [← hb'upd]
      exact ⟨rfl, rfl⟩
    · rw [if_neg (by simpa using hcase)] at hb'upd
      subst hb'upd
      simp only [beq_iff_eq] at hcase
      exact absurd hid hcase


/-- Pre-state of the C1 witness: blocks at orders 1, 2, 3 in "a.rst", all
evaluated, with stream results on blocks 1 and 2 and a file artifact on 3. -/
def c1db : DB :=
  timestamp_code (timestamp_code (timestamp_code
    (create_file (create_result (create_result
      (create_code (create_code (create_code emptyDB "one" "a.rst" 1 none "sage" "sage").1
        "two" "a.rst" 2 none "sage" "sage").1 "three" "a.rst" 3 none "sage" "sage").1
      1 "r1" 0 "text/plain").1 2 "r2" 0 "text/plain").1 3 "f.png" 0 "image/png").1
    1 10) 2 11) 3 12

/-- The stored block at (source "a.rst", order 1) in the C1 witness state. -/
def c1f : CodeBlock := ⟨1, none, 1, 1, "one", some 10, "sage", "sage"⟩

/-- The source row of "a.rst" in the C1 witness state. -/
def c1src : DataSrc := ⟨1, "a.rst", "rst"⟩

/-- State after the invalidating `create_code` call of the C1 witness. -/
def c1post : DB := (create_code c1db "one-changed" "a.rst" 1 none "sage" "sage").1

/-- Witness for C1 at the concrete three-block scenario. -/
theorem c1_witness :
    ((c1db.blocks.map (·.id)).Nodup ∧
      c1db.srcs.find? (fun t => t.src == "a.rst") = some c1src ∧
      c1db.blocks.find? (fun b => b.src_id == c1src.id && b.order == (1 : Int)) = some c1f ∧
      c1f.content ≠ "one-changed") ∧
    ((∀ b ∈ c1db.blocks, b.src_id = c1src.id →
        (∀ r ∈ c1post.streams, r.code_id ≠ b.id) ∧
        (∀ r ∈ c1post.files, r.code_id ≠ b.id) ∧
        (∀ r ∈ c1post.errors, r.code_id ≠ b.id) ∧
        b.id ∉ c1post.dirs) ∧
      (∀ b ∈ c1db.blocks, b.src_id = c1src.id → 1 < b.order → b.id ∉ c1post.blocks.map (·.id)) ∧
      (∀ b ∈ c1db.blocks, b.src_id = c1src.id → b.order < 1 → b.id ∈ c1post.blocks.map (·.id)) ∧
      c1f.id ∈ c1post.blocks.map (·.id) ∧
      (∀ b ∈ c1post.blocks, b.id = c1f.id → b.content = "one-changed" ∧ b.last_evaluated = none)) :=
  ⟨⟨by decide, by decide, by decide, by decide⟩,
    c1_invalidation c1db c1post "one-changed" "a.rst" 1 "sage" "sage" c1src c1f
      (by decide) (by decide) (by decide) (by decide) rfl⟩

end PelicanSage

namespace PelicanSage

/-- C10: when `create_code` hits an existing `(src, order)` block whose stored
content equals the new content, the stored block keeps its old `user_id` (the
call's `user_id` argument is not adopted), while the resolution step still
clears the `user_id` of the other block of the source that held it at a
different order — so afterwards no block of the source holds that user id. -/
theorem c10_user_id_not_adopted (db db2 : DB) (code src : String) (order : Int)
    (uid : String) (lang plat : String) (s : DataSrc) (b0 f : CodeBlock)
    (hids : (db.blocks.map (·.id)).Nodup)
    (hs : db.srcs.find? (fun t => t.src == src) = some s)
    (hres : db.blocks.find? (fun b =>
        db.srcs.any (fun t => t.id == b.src_id && t.src == src) && b.user_id == some uid) = some b0)
    (hord : b0.order ≠ order)
    (hf : db.blocks.find? (fun b => b.src_id == s.id && b.order == order) = some f)
    (hcontent : f.content = code)
    (hfb : f.id ≠ b0.id)
    (honly : ∀ b ∈ db.blocks,
        db.srcs.any (fun t => t.id == b.src_id && t.src == src) = true →
        b.user_id = some uid → b.id = b0.id)
    (hdb2 : db2 = (create_code db code src order (some uid) lang plat).1) :
    f ∈ db2.blocks ∧
    (∀ b ∈ db2.blocks, b.id = f.id → b.user_id = f.user_id) ∧
    (∀ b ∈ db2.blocks, b.id = b0.id → b.user_id = none) ∧
    (∀ b ∈ db2.blocks,
        db2.srcs.any (fun t => t.id == b.src_id && t.src == src) = true →
        b.user_id ≠ some uid) := by
  have hmf := List.mem_of_find?_eq_some hf
  have hpf := List.find?_some hf
  simp only [Bool.and_eq_true, beq_iff_eq] at hpf
  obtain ⟨hfs, hfo⟩ := hpf
  have hordeq : (b0.order == order) = false := by simp [hord]
  have hfbeq : (f.id == b0.id) = false := by simp [hfb]
  have hconteq : (f.content == code) = true := by simp [hcontent]
  rw [create_code] at hdb2
  simp only [resolveUser] at hdb2
  rw [hres] at hdb2
  simp only [hordeq, Bool.false_eq_true, if_false] at hdb2
  rw [create_src] at hdb2
  simp only at hdb2
  rw [hs] at hdb2
  simp only at hdb2
  rw [List.find?_map] at hdb2
  have hpg : ((fun b : CodeBlock => b.src_id == s.id && b.order == order) ∘
      (fun b : CodeBlock => if b.id == b0.id then { b with user_id := none } else b)) =
      (fun b : CodeBlock => b.src_id == s.id && b.order == order) := by
    funext b
    simp only [Function.comp_apply]
    by_cases hcase : b.id = b0.id
    · simp [hcase]
    · simp [hcase]
  rw [hpg, hf] at hdb2
  simp only [Option.map_some'] at hdb2
  simp only [hfbeq, Bool.false_eq_true, if_false] at hdb2
  simp only [hconteq, if_true] at hdb2
  subst hdb2
  refine ⟨?_, ?_, ?_, ?_⟩
  · exact List.mem_map.mpr ⟨f, hmf, by simp [hfbeq]⟩
  · intro b hb hid
    obtain ⟨b', hb'mem, hb'eq⟩ := List.mem_map.mp hb
    by_cases hcase : (b'.id == b0.id) = true
    · rw [if_pos hcase] at hb'eq
      subst hb'eq
      simp only [beq_iff_eq] at hcase
      exact absurd (hcase ▸ hid) hfb.symm
    · rw [if_neg (by simpa using hcase)] at hb'eq
      subst hb'eq
      have : b' = f := List.inj_on_of_nodup_map hids hb'mem hmf hid
      rw [this]
  · intro b hb hid
    obtain ⟨b', hb'mem, hb'eq⟩ := List.mem_map.mp hb
    by_cases hcase : (b'.id == b0.id) = true
    · rw [if_pos hcase] at hb'eq
      subst hb'eq
      rfl
    · rw [if_neg (by simpa using hcase)] at hb'eq
      subst hb'eq
      simp only [beq_iff_eq] at hcase
      exact absurd hid hcase
  · intro b hb hjoin huid
    obtain ⟨b', hb'mem, hb'eq⟩ := List.mem_map.mp hb
    by_cases hcase : (b'.id == b0.id) = true
    · rw [if_pos hcase] at hb'eq
      subst hb'eq
      simp at huid
    · rw [if_neg (by simpa using hcase)] at hb'eq
      subst hb'eq
      simp only [beq_iff_eq] at hcase
      exact hcase (honly b' hb'mem hjoin huid)


/-- Pre-state of the C10 witness: block 1 (order 1) holds user id "x",
block 2 (order 2, content "c2") holds no user id, both in "a.rst". -/
def c10db : DB :=
  (create_code (create_code emptyDB "c1" "a.rst" 1 (some "x") "sage" "sage").1
    "c2" "a.rst" 2 none "sage" "sage").1

/-- The block of the C10 witness that held user id "x" before the call. -/
def c10b0 : CodeBlock := ⟨1, some "x", 1, 1, "c1", none, "sage", "sage"⟩

/-- The stored block at (source "a.rst", order 2) of the C10 witness. -/
def c10f : CodeBlock := ⟨2, none, 1, 2, "c2", none, "sage", "sage"⟩

/-- State after the content-unchanged `create_code` call of the C10 witness. -/
def c10post : DB := (create_code c10db "c2" "a.rst" 2 (some "x") "sage" "sage").1

/-- Witness for C10 at the concrete two-block scenario: after the call, the
order-2 block still holds no user id and user id "x" is held by no block. -/
theorem c10_witness :
    ((c10db.blocks.map (·.id)).Nodup ∧
      c10db.srcs.find? (fun t => t.src == "a.rst") = some ⟨1, "a.rst", "rst"⟩ ∧
      c10db.blocks.find? (fun b =>
        c10db.srcs.any (fun t => t.id == b.src_id && t.src == "a.rst") &&
          b.user_id == some "x") = some c10b0 ∧
      c10b0.order ≠ (2 : Int) ∧
      c10db.blocks.find? (fun b => b.src_id == (1 : Int) && b.order == (2 : Int)) = some c10f ∧
      c10f.content = "c2" ∧
      c10f.id ≠ c10b0.id ∧
      (∀ b ∈ c10db.blocks,
        c10db.srcs.any (fun t => t.id == b.src_id && t.src == "a.rst") = true →
        b.user_id = some "x" → b.id = c10b0.id)) ∧
    (c10f ∈ c10post.blocks ∧
      (∀ b ∈ c10post.blocks, b.id = c10f.id → b.user_id = c10f.user_id) ∧
      (∀ b ∈ c10post.blocks, b.id = c10b0.id → b.user_id = none) ∧
      (∀ b ∈ c10post.blocks,
        c10post.srcs.any (fun t => t.id == b.src_id && t.src == "a.rst") = true →
        b.user_id ≠ some "x")) :=
  ⟨⟨by decide, by decide, by decide, by decide, by decide, by decide, by decide, by decide⟩,
    c10_user_id_not_adopted c10db c10post "c2" "a.rst" 2 "x" "sage" "sage"
      ⟨1, "a.rst", "rst"⟩ c10b0 c10f (by decide) (by decide) (by decide) (by decide)
      (by decide) (by decide) (by decide) (by decide) rfl⟩

end PelicanSage

namespace PelicanSage

/-- After `create_src`, looking the source name up again finds exactly the
returned row. -/
theorem create_src_find (d : DB) (src : String) :
    (create_src d src).1.srcs.find? (fun t => t.src == src) = some (create_src d src).2 := by
  unfold create_src
  cases h : d.srcs.find? (fun t => t.src == src) with
  | some s => simp [h]
  | none => simp [h, List.find?_append]

/-- Filtering by a predicate implied by the search predicate does not change
the result of `find?`. -/
theorem find?_filter_keep {α : Type _} (l : List α) (p q : α → Bool)
    (h : ∀ a, p a = true → q a = true) : (l.filter q).find? p = l.find? p := by
  rw [List.find?_filter]
  congr 1
  funext a
  by_cases hp : p a = true
  · simp [hp, h a hp]
  · simp only [Bool.not_eq_true] at hp
    simp [hp]

/-- The user-id resolution step only rewrites block rows through a function
that preserves id, source, order, content and evaluation timestamp; every
other table is untouched. -/
theorem resolveUser_fields (d : DB) (src : String) (order : Int) (uid : Option String) :
    ∃ g : CodeBlock → CodeBlock,
      (resolveUser d src order uid).blocks = d.blocks.map g ∧
      (∀ b, (g b).id = b.id ∧ (g b).src_id = b.src_id ∧ (g b).order = b.order ∧
        (g b).content = b.content ∧ (g b).last_evaluated = b.last_evaluated) ∧
      (resolveUser d src order uid).srcs = d.srcs ∧
      (resolveUser d src order uid).streams = d.streams ∧
      (resolveUser d src order uid).files = d.files ∧
      (resolveUser d src order uid).errors = d.errors ∧
      (resolveUser d src order uid).dirs = d.dirs := by
  cases uid with
  | none =>
      exact ⟨fun b => b, by simp [resolveUser], fun b => ⟨rfl, rfl, rfl, rfl, rfl⟩,
        rfl, rfl, rfl, rfl, rfl⟩
  | some u =>
      cases hfind : d.blocks.find? (fun b =>
          d.srcs.any (fun s => s.id == b.src_id && s.src == src) && b.user_id == some u) with
      | none =>
          exact ⟨fun b => b, by simp [resolveUser, hfind],
            fun b => ⟨rfl, rfl, rfl, rfl, rfl⟩,
            by simp [resolveUser, hfind], by simp [resolveUser, hfind],
            by simp [resolveUser, hfind], by simp [resolveUser, hfind],
            by simp [resolveUser, hfind]⟩
      | some b0 =>
          by_cases hord : (b0.order == order) = true
          · exact ⟨fun b => b, by simp [resolveUser, hfind, hord],
              fun b => ⟨rfl, rfl, rfl, rfl, rfl⟩,
              by simp [resolveUser, hfind, hord], by simp [resolveUser, hfind, hord],
              by simp [resolveUser, hfind, hord], by simp [resolveUser, hfind, hord],
              by simp [resolveUser, hfind, hord]⟩
          · refine ⟨fun b => if b.id == b0.id then { b with user_id := none } else b,
              by simp [resolveUser, hfind, hord], ?_,
              by simp [resolveUser, hfind, hord], by simp [resolveUser, hfind, hord],
              by simp [resolveUser, hfind, hord], by simp [resolveUser, hfind, hord],
              by simp [resolveUser, hfind, hord]⟩
            intro b
            by_cases hc : (b.id == b0.id) = true <;> simp [hc]

/-- After any `create_code` call there is a source row `s` named `src` such
that looking up `(s.id, order)` among the blocks finds exactly the returned
block, whose content is the submitted code. -/
theorem create_code_post (db : DB) (code src : String) (order : Int)
    (uid : Option String) (lang plat : String) :
    ∃ s : DataSrc,
      (create_code db code src order uid lang plat).1.srcs.find? (fun t => t.src == src) = some s ∧
      (create_code db code src order uid lang plat).1.blocks.find?
          (fun b => b.src_id == s.id && b.order == order) =
        some (create_code db code src order uid lang plat).2 ∧
      (create_code db code src order uid lang plat).2.content = code := by
  rcases hsc : create_src (resolveUser db src order uid) src with ⟨dB, s⟩
  have hBfind : dB.srcs.find? (fun t => t.src == src) = some s := by
    have h := create_src_find (resolveUser db src order uid) src
    rw [hsc] at h
    exact h
  refine ⟨s, ?_, ?_, ?_⟩
  all_goals simp only [create_code]
  all_goals rw [hsc]
  all_goals simp only
  · split
    · exact hBfind
    · split
      · exact hBfind
      · exact hBfind
  · split
    · rename_i hfetch
      show (dB.blocks ++ [(⟨dB.nextBlockId, uid, s.id, order, code, none, lang, plat⟩ : CodeBlock)]).find?
          (fun b => b.src_id == s.id && b.order == order) =
        some ⟨dB.nextBlockId, uid, s.id, order, code, none, lang, plat⟩
      rw [List.find?_append, hfetch]
      simp
    · rename_i fetch hfetch
      split
      · exact hfetch
      · rename_i hcont
        have hfp := List.find?_some hfetch
        simp only [Bool.and_eq_true, beq_iff_eq] at hfp
        obtain ⟨hfs, hfo⟩ := hfp
        show (((dB.blocks.filter (fun b => !(b.src_id == s.id && b.order > fetch.order))).map
            (fun b => if b.id == fetch.id then
              { b with content := code, user_id := uid, last_evaluated := none } else b)).find?
            (fun b => b.src_id == s.id && b.order == order)) =
          some { fetch with content := code, user_id := uid, last_evaluated := none }
        rw [List.find?_map]
        have hpu : ((fun b : CodeBlock => b.src_id == s.id && b.order == order) ∘
            (fun b : CodeBlock => if b.id == fetch.id then
              { b with content := code, user_id := uid, last_evaluated := none } else b)) =
            (fun b : CodeBlock => b.src_id == s.id && b.order == order) := by
          funext b
          simp only [Function.comp_apply]
          by_cases hcase : b.id = fetch.id
          · simp [hcase]
          · simp [hcase]
        rw [hpu]
        rw [find?_filter_keep _ _ _ ?keep]
        case keep =>
          intro a ha
          simp only [Bool.and_eq_true, beq_iff_eq] at ha
          simp [ha.1, ha.2, hfo]
        rw [hfetch]
        simp
  · split
    · rfl
    · split
      · rename_i hcont
        simpa using hcont
      · rfl

/-- C4: a second `create_code` call with identical `(src, order, content)` (and
identical remaining arguments) returns a block with the same id as the first
call, deletes no result rows and no artifact directories, and leaves the
block's `last_evaluated` untouched. -/
theorem c4_upsert_idempotent (db : DB) (code src : String) (order : Int)
    (uid : Option String) (lang plat : String) (r1 r2 : DB × CodeBlock)
    (h1 : r1 = create_code db code src order uid lang plat)
    (h2 : r2 = create_code r1.1 code src order uid lang plat) :
    r2.2.id = r1.2.id ∧
    r2.1.streams = r1.1.streams ∧
    r2.1.files = r1.1.files ∧
    r2.1.errors = r1.1.errors ∧
    r2.1.dirs = r1.1.dirs ∧
    r2.2.last_evaluated = r1.2.last_evaluated := by
  obtain ⟨s, hsfind, hbfind, hcontent⟩ := create_code_post db code src order uid lang plat
  rw [← h1] at hsfind hbfind hcontent
  obtain ⟨g, hgb, hgf, hgs, hgst, hgfi, hge, hgd⟩ := resolveUser_fields r1.1 src order uid
  subst h2
  simp only [create_code]
  have hcs : create_src (resolveUser r1.1 src order uid) src =
      (resolveUser r1.1 src order uid, s) := by
    unfold create_src
    rw [hgs, hsfind]
  rw [hcs]
  simp only
  rw [hgb, List.find?_map]
  have hpg : ((fun b : CodeBlock => b.src_id == s.id && b.order == order) ∘ g) =
      (fun b : CodeBlock => b.src_id == s.id && b.order == order) := by
    funext b
    simp only [Function.comp_apply]
    rw [(hgf b).2.1, (hgf b).2.2.1]
  rw [hpg, hbfind]
  simp only [Option.map_some']
  have hcont2 : ((g r1.2).content == code) = true := by
    rw [(hgf r1.2).2.2.2.1]
    simp [hcontent]
  simp only [hcont2, if_true]
  exact ⟨(hgf r1.2).1, hgst, hgfi, hge, hgd, (hgf r1.2).2.2.2.2⟩

/-- First call of the C4 witness. -/
def c4r1 : DB × CodeBlock := create_code emptyDB "xxx" "a.rst" 1 (some "u") "sage" "sage"

/-- Second, identical call of the C4 witness. -/
def c4r2 : DB × CodeBlock := create_code c4r1.1 "xxx" "a.rst" 1 (some "u") "sage" "sage"

/-- Witness for C4 at a concrete repeated call. -/
theorem c4_witness :
    (c4r1 = create_code emptyDB "xxx" "a.rst" 1 (some "u") "sage" "sage" ∧
      c4r2 = create_code c4r1.1 "xxx" "a.rst" 1 (some "u") "sage" "sage") ∧
    (c4r2.2.id = c4r1.2.id ∧
      c4r2.1.streams = c4r1.1.streams ∧
      c4r2.1.files = c4r1.1.files ∧
      c4r2.1.errors = c4r1.1.errors ∧
      c4r2.1.dirs = c4r1.1.dirs ∧
      c4r2.2.last_evaluated = c4r1.2.last_evaluated) :=
  ⟨⟨rfl, rfl⟩,
    c4_upsert_idempotent emptyDB "xxx" "a.rst" 1 (some "u") "sage" "sage" c4r1 c4r2 rfl rfl⟩

end PelicanSage

namespace PelicanSage

/-- A merged plain-text stream as produced by `combine_results`: Stream tag,
`text/plain` mimetype, non-empty data. -/
def isP (r : CellResult) : Bool :=
  r.result_type == 1 && r.mimetype == "text/plain" && r.data != ""

/-- A pass-through element of a `combine_results` output: its mimetype is not
accumulated (neither `text/plain` nor `text/html`) and not empty. -/
def isPass (r : CellResult) : Bool :=
  r.mimetype != "text/plain" && r.mimetype != "text/html" && r.mimetype != ""

/-- Elements of a list have consecutive `order` fields starting at `k` and each
is either a merged plain stream or a pass-through element. -/
def wfFrom : List CellResult → Nat → Prop
  | [], _ => True
  | r :: rest, k => r.order = k ∧ (isP r = true ∨ isPass r = true) ∧ wfFrom rest (k + 1)

/-- No two adjacent merged plain streams. -/
def noAdj (l : List CellResult) : Prop :=
  l.Chain' (fun a b => ¬(isP a = true ∧ isP b = true))

/-- The head, if any, is not a merged plain stream. -/
def headNotP : List CellResult → Prop
  | [] => True
  | r :: _ => isP r = false

/-- The last element, if any, is not a merged plain stream. -/
def lastNotP (l : List CellResult) : Prop :=
  ∀ x, l.getLast? = some x → isP x = false

/-- A pass-through element is never a merged plain stream. -/
theorem isPass_not_isP {r : CellResult} (h : isPass r = true) : isP r = false := by
  unfold isPass at h
  unfold isP
  simp only [Bool.and_eq_true, bne_iff_ne] at h
  simp [h.1.1]

/-- Appending an element with the next consecutive order preserves `wfFrom`. -/
theorem wfFrom_append (l : List CellResult) (r : CellResult) (k : Nat)
    (hl : wfFrom l k) (hr : isP r = true ∨ isPass r = true)
    (ho : r.order = k + l.length) : wfFrom (l ++ [r]) k := by
  induction l generalizing k with
  | nil =>
      simp only [List.nil_append, wfFrom]
      exact ⟨by simpa using ho, hr, trivial⟩
  | cons a t ih =>
      obtain ⟨ha, hok, ht⟩ := hl
      refine ⟨ha, hok, ih (k + 1) ht ?_⟩
      simp only [List.length_cons] at ho
      omega

/-- Appending an element that is not a merged plain stream, or appending after
a list whose last element is not one, preserves `noAdj`. -/
theorem noAdj_append (l : List CellResult) (r : CellResult)
    (hl : noAdj l) (h : isP r = false ∨ lastNotP l) : noAdj (l ++ [r]) := by
  unfold noAdj at *
  rw [List.chain'_append]
  refine ⟨hl, List.chain'_singleton r, ?_⟩
  intro x hx y hy
  simp only [List.head?_cons, Option.mem_def, Option.some.injEq] at hy
  subst hy
  rcases h with h | h
  · intro hc
    rw [h] at hc
    exact absurd hc.2 (by simp)
  · intro hc
    exact absurd hc.1 (by simp [h x hx])

/-- After appending, the last element is the appended one. -/
theorem lastNotP_append (l : List CellResult) (r : CellResult)
    (h : isP r = false) : lastNotP (l ++ [r]) := by
  intro x hx
  rw [List.getLast?_concat] at hx
  cases hx
  exact h

/-- A merged plain stream with the right order is rebuilt exactly. -/
theorem rebuild_isP {p : CellResult} (h : isP p = true) {k : Nat} (ho : p.order = k) :
    (⟨1, k, p.data, "text/plain"⟩ : CellResult) = p := by
  obtain ⟨rt, od, da, mt⟩ := p
  unfold isP at h
  simp only [Bool.and_eq_true, beq_iff_eq] at h
  simp only at ho h
  rw [h.1.1, h.1.2, ho]

/-- A pass-through element with the right order is rebuilt exactly. -/
theorem rebuild_pass {q : CellResult} {k : Nat} (ho : q.order = k) :
    (⟨q.result_type, k, q.data, q.mimetype⟩ : CellResult) = q := by
  obtain ⟨rt, od, da, mt⟩ := q
  simp only at ho
  rw [ho]

/-- C3 counterexample: merging an already-merged list is not the identity — a
single `text/html` stream gains one more `<br/>` on each merge, and after a
merge producing a pass-through element with empty mimetype a second merge
rewrites its result type to Stream. -/
theorem c3_counterexample :
    (combine_results (combine_results [⟨ResultTypes.Stream, 0, "a", "text/html"⟩]) ≠
      combine_results [⟨ResultTypes.Stream, 0, "a", "text/html"⟩]) ∧
    (combine_results (combine_results
        [⟨ResultTypes.Stream, 0, "", "text/plain"⟩, ⟨ResultTypes.Error, 1, "y", ""⟩]) ≠
      combine_results
        [⟨ResultTypes.Stream, 0, "", "text/plain"⟩, ⟨ResultTypes.Error, 1, "y", ""⟩]) := by
  decide

end PelicanSage

namespace PelicanSage

/-- Field facts of a merged plain stream. -/
theorem isP_facts {r : CellResult} (h : isP r = true) :
    r.result_type = 1 ∧ r.mimetype = "text/plain" ∧ r.data ≠ "" := by
  unfold isP at h
  simp only [Bool.and_eq_true, beq_iff_eq, bne_iff_ne] at h
  exact ⟨h.1.1, h.1.2, h.2⟩

/-- Field facts of a pass-through element. -/
theorem isPass_facts {r : CellResult} (h : isPass r = true) :
    r.mimetype ≠ "text/plain" ∧ r.mimetype ≠ "text/html" ∧ r.mimetype ≠ "" := by
  unfold isPass at h
  simp only [Bool.and_eq_true, bne_iff_ne] at h
  exact ⟨h.1.1, h.1.2, h.2⟩

/-- Replaying `combineAux` over a well-formed merged list reproduces it: with an
empty accumulator it appends the list unchanged, and with a pending non-empty
plain accumulator it flushes one merged stream and then appends the rest. -/
theorem combineAux_replay (n : Nat) : ∀ l : List CellResult, l.length ≤ n →
    (∀ (outAcc : List CellResult) (mt : String), wfFrom l outAcc.length → noAdj l →
        (mt = "" ∨ mt = "text/plain") →
        combineAux l "" mt outAcc = outAcc ++ l) ∧
    (∀ (outAcc : List CellResult) (d : String), d ≠ "" →
        wfFrom l (outAcc.length + 1) → noAdj l → headNotP l →
        combineAux l d "text/plain" outAcc =
          outAcc ++ ⟨1, outAcc.length, d, "text/plain"⟩ :: l) := by
  induction n with
  | zero =>
      intro l hl
      have hnil : l = [] := List.length_eq_zero.mp (Nat.le_zero.mp hl)
      subst hnil
      constructor
      · intro outAcc mt _ _ _
        simp [combineAux]
      · intro outAcc d hd _ _ _
        simp [combineAux, hd, ResultTypes.Stream]
  | succ n ih =>
      intro l hl
      cases l with
      | nil =>
          constructor
          · intro outAcc mt _ _ _
            simp [combineAux]
          · intro outAcc d hd _ _ _
            simp [combineAux, hd, ResultTypes.Stream]
      | cons r rest =>
          have hrest : rest.length ≤ n := by
            simp only [List.length_cons] at hl
            omega
          obtain ⟨ihA, ihB⟩ := ih rest hrest
          constructor
          · -- empty accumulator
            intro outAcc mt hwf hadj hmt
            obtain ⟨hord, hok, hwfrest⟩ := hwf
            have hadjrest : noAdj rest := (List.chain'_cons'.mp hadj).2
            rcases hok with hP | hPass
            · obtain ⟨hrt, hmime, hdata⟩ := isP_facts hP
              have hnext : headNotP rest := by
                cases rest with
                | nil => trivial
                | cons b t =>
                    have hrel := (List.chain'_cons'.mp hadj).1 b (by simp)
                    cases hb : isP b
                    · exact hb
                    · exact absurd ⟨hP, hb⟩ hrel
              rcases hmt with hmt | hmt
              · subst hmt
                have hc1 : ¬(r.mimetype = "") := by simp [hmime]
                simp only [combineAux, ResultTypes.Stream]
                rw [if_neg hc1]
                rw [if_neg (show ¬("" ≠ "") from fun h => h rfl)]
                rw [if_pos (show r.mimetype ∈ accumulatedMimetypes from by
                  rw [hmime]; simp [accumulatedMimetypes])]
                rw [hmime]
                rw [show r.data ++ htmlBr "text/plain" = r.data from by
                  simp [htmlBr, String.append_empty]]
                rw [ihB outAcc r.data hdata hwfrest hadjrest hnext, rebuild_isP hP hord]
              · subst hmt
                simp only [combineAux, ResultTypes.Stream]
                rw [if_pos (show r.mimetype = "text/plain" from hmime)]
                rw [show "" ++ r.data ++ htmlBr "text/plain" = r.data from by
                  simp [htmlBr, String.append_empty]]
                rw [ihB outAcc r.data hdata hwfrest hadjrest hnext, rebuild_isP hP hord]
            · obtain ⟨hm1, hm2, hm3⟩ := isPass_facts hPass
              have hc1 : ¬(r.mimetype = mt) := by
                rcases hmt with hmt | hmt <;> rw [hmt]
                · exact hm3
                · exact hm1
              simp only [combineAux, ResultTypes.Stream]
              rw [if_neg hc1]
              rw [if_neg (show ¬("" ≠ "") from fun h => h rfl)]
              rw [if_neg (show ¬(r.mimetype ∈ accumulatedMimetypes) from by
                simp [accumulatedMimetypes, hm1, hm2])]
              rw [rebuild_pass hord]
              rw [ihA (outAcc ++ [r]) mt (by simpa using hwfrest) hadjrest hmt]
              simp
          · -- pending accumulator
            intro outAcc d hd hwf hadj hhead
            obtain ⟨hord, hok, hwfrest⟩ := hwf
            have hadjrest : noAdj rest := (List.chain'_cons'.mp hadj).2
            have hPass : isPass r = true := by
              rcases hok with hP | hPass
              · rw [hhead] at hP
                cases hP
              · exact hPass
            obtain ⟨hm1, hm2, hm3⟩ := isPass_facts hPass
            simp only [combineAux, ResultTypes.Stream]
            rw [if_neg (show ¬(r.mimetype = "text/plain") from hm1)]
            rw [if_pos (show d ≠ "" from hd)]
            rw [if_neg (show ¬(r.mimetype ∈ accumulatedMimetypes) from by
              simp [accumulatedMimetypes, hm1, hm2])]
            rw [rebuild_pass (show r.order =
              (outAcc ++ [(⟨1, outAcc.length, d, "text/plain"⟩ : CellResult)]).length from by
                simpa using hord)]
            have hlen : (((outAcc ++ [(⟨1, outAcc.length, d, "text/plain"⟩ : CellResult)]) ++
                [r]).length) = outAcc.length + 1 + 1 := by
              simp only [List.length_append, List.length_cons, List.length_nil]
            have happ := ihA ((outAcc ++ [(⟨1, outAcc.length, d, "text/plain"⟩ : CellResult)]) ++ [r])
              "text/plain" (by rw [hlen]; exact hwfrest) hadjrest (Or.inr rfl)
            rw [happ]
            simp

end PelicanSage

namespace PelicanSage

/-- The flushed accumulator is a merged plain stream when non-empty. -/
theorem isP_flush (accum : String) (k : Nat) (h : accum ≠ "") :
    isP ⟨ResultTypes.Stream, k, accum, "text/plain"⟩ = true := by
  simp [isP, ResultTypes.Stream, h]

/-- A pass-through element rebuilt at any position is a pass-through. -/
theorem isPass_build (rt : Nat) (k : Nat) (d m : String)
    (h1 : m ≠ "text/plain") (h2 : m ≠ "text/html") (h3 : m ≠ "") :
    isPass ⟨rt, k, d, m⟩ = true := by
  simp [isPass, h1, h2, h3]

/-- On inputs without `text/html` or empty mimetypes, `combineAux` keeps its
output consecutively numbered, composed of merged plain streams and
pass-through elements, with no two adjacent merged plain streams. -/
theorem combineAux_wf : ∀ l : List CellResult, ∀ (accum mt : String) (outAcc : List CellResult),
    (∀ r ∈ l, r.mimetype ≠ "text/html" ∧ r.mimetype ≠ "") →
    (mt = "" ∨ mt = "text/plain") →
    (accum ≠ "" → mt = "text/plain") →
    wfFrom outAcc 0 → noAdj outAcc → lastNotP outAcc →
    wfFrom (combineAux l accum mt outAcc) 0 ∧ noAdj (combineAux l accum mt outAcc) := by
  intro l
  induction l with
  | nil =>
      intro accum mt outAcc hin hmt hacc hwf hadj hlast
      simp only [combineAux]
      by_cases hne : accum ≠ ""
      · rw [if_pos hne]
        have hmtp := hacc hne
        subst hmtp
        constructor
        · exact wfFrom_append outAcc _ 0 hwf (Or.inl (isP_flush accum outAcc.length hne))
            (by simp)
        · exact noAdj_append outAcc _ hadj (Or.inr hlast)
      · rw [if_neg hne]
        exact ⟨hwf, hadj⟩
  | cons cr rest ihl =>
      intro accum mt outAcc hin hmt hacc hwf hadj hlast
      obtain ⟨hnh, hnee⟩ := hin cr (by simp)
      have hinrest : ∀ r ∈ rest, r.mimetype ≠ "text/html" ∧ r.mimetype ≠ "" :=
        fun r hr => hin r (by simp [hr])
      simp only [combineAux]
      by_cases hc1 : cr.mimetype = mt
      · rw [if_pos hc1]
        have hmtp : mt = "text/plain" := by
          rcases hmt with h | h
          · rw [h] at hc1
            exact absurd hc1 hnee
          · exact h
        exact ihl _ _ _ hinrest hmt (fun _ => hmtp) hwf hadj hlast
      · rw [if_neg hc1]
        by_cases hmem : cr.mimetype ∈ accumulatedMimetypes
        · have hpl : cr.mimetype = "text/plain" := by
            rcases (show cr.mimetype = "text/plain" ∨ cr.mimetype = "text/html" from by
              simpa [accumulatedMimetypes] using hmem) with h | h
            · exact h
            · exact absurd h hnh
          have hacce : accum = "" := by
            by_contra hne
            have h1 := hacc hne
            have h2 : mt = "" := by
              rcases hmt with h | h
              · exact h
              · rw [h] at hc1
                exact absurd hpl hc1
            rw [h2] at h1
            exact absurd h1 (by simp)
          subst hacce
          rw [if_neg (show ¬("" ≠ "") from fun h => h rfl)]
          rw [if_pos hmem]
          exact ihl _ _ _ hinrest (Or.inr hpl) (fun _ => hpl) hwf hadj hlast
        · rw [if_neg hmem]
          obtain ⟨hp, hh⟩ : ¬(cr.mimetype = "text/plain") ∧ ¬(cr.mimetype = "text/html") := by
            constructor
            · intro h
              exact hmem (by simp [accumulatedMimetypes, h])
            · intro h
              exact hmem (by simp [accumulatedMimetypes, h])
          by_cases hne : accum ≠ ""
          · rw [if_pos hne]
            have hmtp := hacc hne
            subst hmtp
            refine ihl _ _ _ hinrest hmt (fun h => absurd rfl h) ?_ ?_ ?_
            · refine wfFrom_append _ _ 0 ?_ (Or.inr (isPass_build _ _ _ _ hp hh hnee)) (by simp)
              exact wfFrom_append outAcc _ 0 hwf (Or.inl (isP_flush accum outAcc.length hne))
                (by simp)
            · refine noAdj_append _ _ ?_ (Or.inl (isPass_not_isP (isPass_build _ _ _ _ hp hh hnee)))
              exact noAdj_append outAcc _ hadj (Or.inr hlast)
            · exact lastNotP_append _ _ (isPass_not_isP (isPass_build _ _ _ _ hp hh hnee))
          · rw [if_neg hne]
            refine ihl _ _ _ hinrest hmt (fun h => absurd rfl h) ?_ ?_ ?_
            · exact wfFrom_append outAcc _ 0 hwf
                (Or.inr (isPass_build _ _ _ _ hp hh hnee)) (by simp)
            · exact noAdj_append outAcc _ hadj
                (Or.inl (isPass_not_isP (isPass_build _ _ _ _ hp hh hnee)))
            · exact lastNotP_append _ _ (isPass_not_isP (isPass_build _ _ _ _ hp hh hnee))

end PelicanSage

namespace PelicanSage

/-- C3 (amended): `combine_results` is idempotent on result lists that contain
no `text/html` stream and no empty mimetype — merging an already-merged such
list changes nothing.  (The counterexample shows both exclusions are needed:
html fragments gain a `<br/>` per merge, and empty mimetypes can be re-merged
into a Stream.) -/
theorem c3_idempotent_no_html (rs : List CellResult)
    (h : ∀ r ∈ rs, r.mimetype ≠ "text/html" ∧ r.mimetype ≠ "") :
    combine_results (combine_results rs) = combine_results rs := by
  cases rs with
  | nil => rfl
  | cons r rest =>
      have hmt0 : (if r.mimetype ∈ accumulatedMimetypes then r.mimetype else "") = "" ∨
          (if r.mimetype ∈ accumulatedMimetypes then r.mimetype else "") = "text/plain" := by
        by_cases hm : r.mimetype ∈ accumulatedMimetypes
        · right
          rw [if_pos hm]
          rcases (show r.mimetype = "text/plain" ∨ r.mimetype = "text/html" from by
            simpa [accumulatedMimetypes] using hm) with hx | hx
          · exact hx
          · exact absurd hx (h r (by simp)).1
        · left
          rw [if_neg hm]
      have hco : combine_results (r :: rest) =
          combineAux (r :: rest) "" (if r.mimetype ∈ accumulatedMimetypes then r.mimetype else "")
            [] := rfl
      obtain ⟨hwf, hadj⟩ := combineAux_wf (r :: rest) ""
        (if r.mimetype ∈ accumulatedMimetypes then r.mimetype else "") [] h hmt0
        (fun hx => absurd rfl hx) trivial List.chain'_nil
        (fun x hx => by simp at hx)
      rw [← hco] at hwf hadj
      cases hl : combine_results (r :: rest) with
      | nil => rfl
      | cons o os =>
          rw [hl] at hwf hadj
          obtain ⟨ho_ord, ho_ok, ho_rest⟩ := hwf
          have hmt0' : (if o.mimetype ∈ accumulatedMimetypes then o.mimetype else "") = "" ∨
              (if o.mimetype ∈ accumulatedMimetypes then o.mimetype else "") = "text/plain" := by
            rcases ho_ok with hP | hPass
            · right
              have hpl := (isP_facts hP).2.1
              rw [if_pos (by rw [hpl]; simp [accumulatedMimetypes])]
              exact hpl
            · left
              obtain ⟨h1, h2, _⟩ := isPass_facts hPass
              rw [if_neg (by simp [accumulatedMimetypes, h1, h2])]
          have hrep := (combineAux_replay (o :: os).length (o :: os) le_rfl).1 []
            (if o.mimetype ∈ accumulatedMimetypes then o.mimetype else "")
            ⟨ho_ord, ho_ok, ho_rest⟩ hadj hmt0'
          calc combine_results (o :: os)
              = combineAux (o :: os) ""
                  (if o.mimetype ∈ accumulatedMimetypes then o.mimetype else "") [] := rfl
            _ = [] ++ (o :: os) := hrep
            _ = o :: os := by simp

/-- Input of the C3 witness: plain streams around an image, no html and no
empty mimetype. -/
def c3rs : List CellResult :=
  [⟨1, 0, "a", "text/plain"⟩, ⟨0, 1, "i", "image/png"⟩, ⟨1, 2, "b", "text/plain"⟩]

/-- Witness for the amended C3 at a concrete mixed list. -/
theorem c3_witness :
    (∀ r ∈ c3rs, r.mimetype ≠ "text/html" ∧ r.mimetype ≠ "") ∧
      combine_results (combine_results c3rs) = combine_results c3rs :=
  ⟨by decide, c3_idempotent_no_html c3rs (by decide)⟩

end PelicanSage
